import Mathlib

/-!
Verification development for the Pyth BTC history fetch scripts
(`fetch_pyth_btc_1min.py`, `fetch_pyth_btc_1sec.py`, `fetch_pyth_btc_history.py`).

The Python sources are shallowly embedded: JSON field values become an
inductive `Jv`, Python `int(...)` becomes a partial parse `pyInt`, Python
truthiness becomes `truthy`, and the two `fetch_window` item loops, the
`parsed_bars` converter, the effective-start computations and the windowed
ingestion loops of `run` become executable Lean functions.  Python float
arithmetic (`int(raw) * 10 ** expo`) is idealized as exact rational
arithmetic; wall-clock time, HTTP and the rate-limit sleep are abstracted
(the fetch is an injected function, as the spec itself describes).
-/

namespace Pyth

/-- A JSON scalar value as it can appear in an API response field:
an integer, a string, or null (also standing for a missing value that
`dict.get` turned into `None`). -/
inductive Jv where
  | jnum (n : Int)
  | jstr (s : String)
  | jnull
  deriving DecidableEq, Repr

/-- Decimal digit run parser: accumulates the value, fails on the first
non-digit character. -/
def parseDigitsAux : List Char → Nat → Option Nat
  | [], acc => some acc
  | c :: rest, acc =>
    if c.isDigit then parseDigitsAux rest (acc * 10 + (c.toNat - 48)) else none

/-- A non-empty decimal digit run, or failure. -/
def parseDigits (cs : List Char) : Option Nat :=
  match cs with
  | [] => none
  | _ => parseDigitsAux cs 0

/-- Python `int(s)` on a string: an optional sign followed by a non-empty
digit run; anything else raises `ValueError` (surrounding whitespace and
digit-group underscores, which Python also accepts, are not modelled). -/
def pyIntOfChars : List Char → Option Int
  | '-' :: rest => (parseDigits rest).map (fun n => -(n : Int))
  | '+' :: rest => (parseDigits rest).map (fun n => (n : Int))
  | cs => (parseDigits cs).map (fun n => (n : Int))

/-- Python `int(x)` on a JSON scalar: succeeds on integers and on integer
strings, raises (here: `none`) on non-numeric strings (`ValueError`) and on
`None` (`TypeError`). -/
def pyInt : Jv → Option Int
  | Jv.jnum n => some n
  | Jv.jstr s => pyIntOfChars s.data
  | Jv.jnull => none

/-- Python truthiness of a JSON scalar: `0`, `""` and `None` are falsy,
everything else is truthy. -/
def truthy : Jv → Bool
  | Jv.jnum n => n != 0
  | Jv.jstr s => s != ""
  | Jv.jnull => false

/-- Python `s.lower()`, character by character. -/
def strLower (s : String) : String :=
  String.mk (s.data.map Char.toLower)

/-- Python `s.removeprefix("0x")` at character level. -/
def remove0xChars : List Char → List Char
  | '0' :: 'x' :: rest => rest
  | cs => cs

/-- normalize_feed_id: `s.lower().removeprefix("0x")`. -/
def normalize_feed_id (s : String) : String :=
  String.mk (remove0xChars (strLower s).data)

/-- Python `s.replace("0x", "")`: remove every non-overlapping occurrence,
scanning left to right. -/
def repl0x : List Char → List Char
  | '0' :: 'x' :: rest => repl0x rest
  | c :: rest => c :: repl0x rest
  | [] => []

/-- The id normalization applied to each response item:
`p.get("id", "").lower().replace("0x", "")` (replaces everywhere). -/
def itemIdNorm (s : String) : String :=
  String.mk (repl0x (strLower s).data)

/-- Python `10 ** expo` for an integer exponent, as an exact rational
(the scripts compute with floats; we idealize). -/
def pow10 (e : Int) : ℚ :=
  if 0 ≤ e then ((10 : ℚ) ^ e.toNat) else ((10 : ℚ) ^ (-e).toNat)⁻¹

/-- A persisted price record: the `timestamp`/`price`/`conf` fields of the
row dicts built by `fetch_window` (the derived `datetime_utc` string and the
1min-only `expo` field are presentational and not modelled).  `price` is an
`Option` because the 1min script can store `None` there. -/
structure PricePoint where
  timestamp : Int
  price : Option ℚ
  conf : Option ℚ
  deriving DecidableEq, Repr

/-- One item of the `parsed` array of an updates-API response, restricted to
the fields the scripts read.  A missing `price` object (`p.get("price") or
def {}`) is represented by all price-object fields being `none`. -/
structure ParsedItem where
  id : String
  price : Option Jv
  expo : Option Int
  publish_time : Option Int
  conf : Option Jv
  deriving DecidableEq, Repr

/-- Item processing of `fetch_window` in `fetch_pyth_btc_1sec.py`
(lines 98-118): skip non-matching ids, skip items with missing
`price`/`publish_time`, skip items whose `price` (or truthy `conf`) fails
`int(...)`; otherwise build the row.  `conf` defaults to the string "0",
`expo` defaults to `-8`. -/
def processItem1sec (fid : String) (p : ParsedItem) : Option PricePoint :=
  if itemIdNorm p.id ≠ fid then none
  else
    match p.price, p.publish_time with
    | some rawPrice, some pt =>
      match pyInt rawPrice with
      | none => none
      | some n =>
        if truthy (p.conf.getD (Jv.jstr "0")) then
          match pyInt (p.conf.getD (Jv.jstr "0")) with
          | none => none
          | some c =>
            some { timestamp := pt, price := some ((n : ℚ) * pow10 (p.expo.getD (-8))),
                   conf := some ((c : ℚ) * pow10 (p.expo.getD (-8))) }
        else
          some { timestamp := pt, price := some ((n : ℚ) * pow10 (p.expo.getD (-8))),
                 conf := none }
    | _, _ => none

/-- Item processing of `fetch_window` in `fetch_pyth_btc_1min.py`
(lines 64-85): same field extraction, but a parse failure of `price` (or of
a truthy `conf`) is caught and the row is still appended with
`price = None` and `conf = None`; only a missing `price`/`publish_time`
(or a foreign id) drops the item. -/
def processItem1min (fid : String) (p : ParsedItem) : Option PricePoint :=
  if itemIdNorm p.id ≠ fid then none
  else
    match p.price, p.publish_time with
    | some rawPrice, some pt =>
      match pyInt rawPrice with
      | none => some { timestamp := pt, price := none, conf := none }
      | some n =>
        if truthy (p.conf.getD (Jv.jstr "0")) then
          match pyInt (p.conf.getD (Jv.jstr "0")) with
          | none => some { timestamp := pt, price := none, conf := none }
          | some c =>
            some { timestamp := pt, price := some ((n : ℚ) * pow10 (p.expo.getD (-8))),
                   conf := some ((c : ℚ) * pow10 (p.expo.getD (-8))) }
        else
          some { timestamp := pt, price := some ((n : ℚ) * pow10 (p.expo.getD (-8))),
                 conf := none }
    | _, _ => none

/-- The response body of the updates API: a list of update objects, each
carrying a `parsed` list of items (`item.get("parsed") or []`; a single
dict is wrapped into a one-element list by the scripts, which the list
representation covers). -/
def fetchRows1sec (fid : String) (data : List (List ParsedItem)) : List PricePoint :=
  (data.map (fun chunk => chunk.filterMap (processItem1sec fid))).flatten

/-- Row assembly of `fetch_window` in the 1min script. -/
def fetchRows1min (fid : String) (data : List (List ParsedItem)) : List PricePoint :=
  (data.map (fun chunk => chunk.filterMap (processItem1min fid))).flatten

/-- one_price_per_minute: pick the first row of the window, or `None`. -/
def one_price_per_minute (rows : List PricePoint) : Option PricePoint :=
  rows.head?

/-! ## The TradingView history script (`fetch_pyth_btc_history.py`) -/

/-- The fields of the TradingView history response that `parsed_bars`
reads.  `t` holds epoch seconds; the value arrays are rationals. -/
structure Hist where
  s : Option String
  errmsg : Option String
  t : Option (List Int)
  o : Option (List ℚ)
  h : Option (List ℚ)
  l : Option (List ℚ)
  c : Option (List ℚ)
  v : Option (List ℚ)
  deriving DecidableEq, Repr

/-- One OHLCV bar as built by `parsed_bars` (field `open_` stands for the
Python key "open"; `datetime_utc` is a string rendering of `timestamp` and
is not modelled). -/
structure Bar where
  timestamp : Int
  open_ : Option ℚ
  high : Option ℚ
  low : Option ℚ
  close : Option ℚ
  volume : Option ℚ
  deriving DecidableEq, Repr

/-- parsed_bars (`fetch_pyth_btc_history.py` lines 57-79): raise
`ValueError` unless `s == "ok"`, then produce one bar per entry of `t`,
padding any shorter `o`/`h`/`l`/`c`/`v` array with `None`
(`o[i] if i < len(o) else None` is exactly `List.get?`). -/
def parsed_bars (d : Hist) : Except String (List Bar) :=
  if d.s ≠ some "ok" then Except.error "API returned status not ok"
  else
    let t := d.t.getD []
    let o := d.o.getD []
    let hi := d.h.getD []
    let lo := d.l.getD []
    let c := d.c.getD []
    let v := d.v.getD []
    Except.ok (t.enum.map (fun p =>
      { timestamp := p.2, open_ := o.get? p.1, high := hi.get? p.1,
        low := lo.get? p.1, close := c.get? p.1, volume := v.get? p.1 }))

/-! ## Effective start timestamps -/

/-- Effective start of `run` in the 1min script (lines 123-136): the
computed range start, raised to `resume_from_ts` when given; when
`resume_from_ts` is absent and the existing CSV is non-empty, raised to
`max(existing timestamps) + INTERVAL_SEC`. -/
def effStart1min (alignedStart : Int) (resume : Option Int) (existingTs : List Int) : Int :=
  let s1 := match resume with
    | some r => max alignedStart r
    | none => alignedStart
  match resume, existingTs.max? with
  | none, some lastTs => max s1 (lastTs + 60)
  | _, _ => s1

/-- Effective start of `run` in the 1sec script (lines 177-178, 197-199):
the computed range start, raised to `resume_from_ts` when given; when
`resume_from_ts` is absent and the table is non-empty, raised to
`db_last + 1` (one second, not one 60s step). -/
def effStart1sec (alignedStart : Int) (resume : Option Int) (dbLast : Option Int) : Int :=
  let s1 := match resume with
    | some r => max alignedStart r
    | none => alignedStart
  match dbLast, resume with
  | some lastTs, none => max s1 (lastTs + 1)
  | _, _ => s1

/-- End timestamp of the 1sec run (lines 179-180): `max_minutes` caps the
end relative to the start as computed before the DB adjustment. -/
def effEnd1sec (endTs0 startBeforeDb : Int) (maxM : Option Nat) : Int :=
  match maxM with
  | some m => min endTs0 (startBeforeDb + 60 * (m : Int))
  | none => endTs0

/-! ## The windowed ingestion loops

Both `run` functions are while loops over a cursor `t` advancing in 60s
steps.  Observable side effects (fetch calls, sink writes, checkpoint
saves, error log lines) are recorded in an event trace so that statements
about logging and about flush-on-exit can be made. -/

/-- An observable side effect of a loop iteration or of the exit path. -/
inductive Event where
  | fetchAt (t : Int)
  | sink (ts : List Int)
  | cpSave (t : Int)
  | errLog (t : Int)
  deriving DecidableEq, Repr

/-- Timestamps of a table/row list, in order. -/
def dbKeys (db : List PricePoint) : List Int :=
  db.map PricePoint.timestamp

/-- insert_rows_db (`fetch_pyth_btc_1sec.py` lines 147-158): INSERT the
batch with `ON CONFLICT (timestamp) DO NOTHING` — each row is appended
unless its timestamp is already present (rows earlier in the same batch
included). -/
def insertRowsDb (table : List PricePoint) (rows : List PricePoint) : List PricePoint :=
  rows.foldl (fun tb r => if r.timestamp ∈ dbKeys tb then tb else tb ++ [r]) table

/-- Loop state of `run` in the 1min script: the cursor, the success
counter, the accumulated row list, the contents of the checkpoint file
(`none` = absent), the contents of the CSV/JSON output (`none` = never
written), and the event trace. -/
structure St1 where
  t : Int
  fetched : Nat
  allRows : List PricePoint
  cp : Option Int
  csvFile : Option (List PricePoint)
  events : List Event
  deriving DecidableEq, Repr

/-- Loop state of `run` in the 1sec script: cursor, success counter,
insert counter, table contents, checkpoint file, event trace. -/
structure St2 where
  t : Int
  fetchedWindows : Nat
  totalInserted : Nat
  db : List PricePoint
  cp : Option Int
  events : List Event
  deriving DecidableEq, Repr

/-- flush_files (1min, lines 143-152): rewrite CSV and JSON with the full
row list; an empty list returns without writing. -/
def flushFiles (rows : List PricePoint) (s : St1) : St1 :=
  if rows = [] then s
  else { s with csvFile := some rows, events := s.events ++ [Event.sink (dbKeys rows)] }

/-- One iteration of the 1min while body (lines 155-171): fetch the
window (on error, log and fall through), take the first row, bump the
counter; advance `t` by 60; every 100 successful windows write the
checkpoint (with the already-advanced `t`) and flush. -/
def step1min (fetch : Int → Except String (List PricePoint)) (s : St1) : St1 :=
  let s0 := { s with events := s.events ++ [Event.fetchAt s.t] }
  let s1 := match fetch s.t with
    | Except.ok rows =>
      match one_price_per_minute rows with
      | some row => { s0 with allRows := s0.allRows ++ [row], fetched := s0.fetched + 1 }
      | none => { s0 with fetched := s0.fetched + 1 }
    | Except.error _ => { s0 with events := s0.events ++ [Event.errLog s.t] }
  let s2 := { s1 with t := s1.t + 60 }
  if s2.fetched % 100 = 0 ∧ s2.fetched ≠ 0 then
    flushFiles s2.allRows { s2 with cp := some s2.t, events := s2.events ++ [Event.cpSave s2.t] }
  else s2

/-- One iteration of the 1sec while body (lines 212-231): fetch the
window (on error, log and fall through), insert non-empty row lists into
the table; advance `t` by 60; every 100 successful windows write the
checkpoint (with the already-advanced `t`). -/
def step1sec (fetch : Int → Except String (List PricePoint)) (s : St2) : St2 :=
  let s0 := { s with events := s.events ++ [Event.fetchAt s.t] }
  let s1 := match fetch s.t with
    | Except.ok rows =>
      if rows = [] then { s0 with fetchedWindows := s0.fetchedWindows + 1 }
      else
        { s0 with db := insertRowsDb s0.db rows,
                  totalInserted := s0.totalInserted + rows.length,
                  fetchedWindows := s0.fetchedWindows + 1,
                  events := s0.events ++ [Event.sink (dbKeys rows)] }
    | Except.error _ => { s0 with events := s0.events ++ [Event.errLog s.t] }
  let s2 := { s1 with t := s1.t + 60 }
  if s2.fetchedWindows % 100 = 0 ∧ s2.fetchedWindows ≠ 0 then
    { s2 with cp := some s2.t, events := s2.events ++ [Event.cpSave s2.t] }
  else s2

/-- The while condition of the 1min loop:
`t < end_ts and (max_minutes is None or fetched < max_minutes)`. -/
def cond1min (endTs : Int) (maxM : Option Nat) (s : St1) : Bool :=
  decide (s.t < endTs) && (match maxM with
    | none => true
    | some m => decide (s.fetched < m))

/-- The while condition of the 1sec loop. -/
def cond1sec (endTs : Int) (maxM : Option Nat) (s : St2) : Bool :=
  decide (s.t < endTs) && (match maxM with
    | none => true
    | some m => decide (s.fetchedWindows < m))

/-- Number of iterations of `while t < endTs: t += 60` started at `t`:
`⌈(endTs - t) / 60⌉`, clamped at 0.  Any fuel at least this large makes the
fuelled loops below equal to the Python while loops. -/
def numWin (t endTs : Int) : Nat :=
  (endTs - t + 59).toNat / 60

/-- The window starts visited by `n` iterations from `s`. -/
def winListN : Nat → Int → List Int
  | 0, _ => []
  | n + 1, s => s :: winListN n (s + 60)

/-- All window starts of the range `[s, e)` in 60s steps. -/
def winList (s e : Int) : List Int :=
  winListN (numWin s e) s

/-- The fuelled 1min while loop: with fuel at least `numWin s.t endTs`
this is exactly the source's while loop (the condition is re-checked each
round and the cursor gains 60 per round, so such fuel never runs out;
see `cond1min_loopGo1min`). -/
def loopGo1min (fetch : Int → Except String (List PricePoint)) (endTs : Int)
    (maxM : Option Nat) : Nat → St1 → St1
  | 0, s => s
  | fuel + 1, s =>
    if cond1min endTs maxM s then loopGo1min fetch endTs maxM fuel (step1min fetch s)
    else s

/-- The fuelled 1sec while loop. -/
def loopGo1sec (fetch : Int → Except String (List PricePoint)) (endTs : Int)
    (maxM : Option Nat) : Nat → St2 → St2
  | 0, s => s
  | fuel + 1, s =>
    if cond1sec endTs maxM s then loopGo1sec fetch endTs maxM fuel (step1sec fetch s)
    else s

/-- The finally block of the 1min `run` (lines 172-176): flush the
accumulated rows when there are any, then unlink the checkpoint file if it
exists — on every exit, clean or exceptional. -/
def finally1min (s : St1) : St1 :=
  let s1 := if s.allRows = [] then s else flushFiles s.allRows s
  { s1 with cp := none }

/-- The finally block of the 1sec `run` (lines 232-237): close the
connection and unlink the checkpoint file if it exists — on every exit,
clean or exceptional.  No sink call happens here. -/
def finally1sec (s : St2) : St2 :=
  { s with cp := none }

/-- A full clean run of the 1min script from aligned range
`[alignedStart, endTs)`: compute the effective start from the resume
argument and the pre-existing CSV (`none` = file absent), run the loop to
completion, then the finally block. -/
def run1min (fetch : Int → Except String (List PricePoint)) (alignedStart endTs : Int)
    (resume : Option Int) (existingCsv : Option (List PricePoint)) (cp0 : Option Int)
    (maxM : Option Nat) : St1 :=
  let existing := existingCsv.getD []
  let start := effStart1min alignedStart resume (dbKeys existing)
  let init : St1 :=
    { t := start, fetched := 0, allRows := existing, cp := cp0,
      csvFile := existingCsv, events := [] }
  finally1min (loopGo1min fetch endTs maxM (numWin start endTs) init)

/-- An exceptional exit of the 1min script: the loop body raises after `k`
completed iterations (e.g. KeyboardInterrupt), and the finally block still
runs. -/
def crash1min (fetch : Int → Except String (List PricePoint)) (endTs : Int)
    (maxM : Option Nat) (k : Nat) (init : St1) : St1 :=
  finally1min (loopGo1min fetch endTs maxM k init)

/-- A full clean run of the 1sec script: effective start from the resume
argument and the table's max timestamp, end capped by `max_minutes`
relative to the pre-DB start, loop to completion, finally block. -/
def run1sec (fetch : Int → Except String (List PricePoint)) (alignedStart endTs0 : Int)
    (resume : Option Int) (db0 : List PricePoint) (cp0 : Option Int)
    (maxM : Option Nat) : St2 :=
  let s1 := match resume with
    | some r => max alignedStart r
    | none => alignedStart
  let endTs := effEnd1sec endTs0 s1 maxM
  let start := effStart1sec alignedStart resume (dbKeys db0).max?
  let init : St2 :=
    { t := start, fetchedWindows := 0, totalInserted := 0, db := db0,
      cp := cp0, events := [] }
  finally1sec (loopGo1sec fetch endTs maxM (numWin start endTs) init)

/-- An exceptional exit of the 1sec script after `k` completed
iterations; the finally block still runs. -/
def crash1sec (fetch : Int → Except String (List PricePoint)) (endTs : Int)
    (maxM : Option Nat) (k : Nat) (init : St2) : St2 :=
  finally1sec (loopGo1sec fetch endTs maxM k init)

/-- The persisted-table effect of processing the given windows in the
1sec loop: per window, insert the fetched rows when the fetch succeeds
with a non-empty list, else leave the table unchanged. -/
def sinkFold (fetch : Int → Except String (List PricePoint))
    (db : List PricePoint) (ws : List Int) : List PricePoint :=
  ws.foldl (fun d w =>
    match fetch w with
    | Except.ok rows => if rows = [] then d else insertRowsDb d rows
    | Except.error _ => d) db

/-- The fetch calls recorded in a trace, in order. -/
def fetchTrace (events : List Event) : List Int :=
  events.filterMap (fun e =>
    match e with
    | Event.fetchAt t => some t
    | _ => none)

/-- The error log lines recorded in a trace, in order. -/
def errTrace (events : List Event) : List Int :=
  events.filterMap (fun e =>
    match e with
    | Event.errLog t => some t
    | _ => none)

/-- Whether an `Except` result is an error. -/
def isErr : Except String (List PricePoint) → Bool
  | Except.error _ => true
  | Except.ok _ => false

/-- The failed windows among `ws`, in order. -/
def errWins (fetch : Int → Except String (List PricePoint)) (ws : List Int) : List Int :=
  ws.filter (fun w => isErr (fetch w))

/-! ## Window arithmetic -/

theorem numWin_eq_zero {t e : Int} (h : e ≤ t) : numWin t e = 0 := by
  unfold numWin
  apply Nat.div_eq_of_lt
  omega

theorem numWin_succ {t e : Int} (h : t < e) : numWin t e = numWin (t + 60) e + 1 := by
  unfold numWin
  have h1 : (e - t + 59).toNat = (e - (t + 60) + 59).toNat + 60 := by omega
  rw [h1, Nat.add_div_right _ (by norm_num)]

theorem winList_nil {t e : Int} (h : e ≤ t) : winList t e = [] := by
  unfold winList
  rw [numWin_eq_zero h]
  rfl

theorem winList_cons {t e : Int} (h : t < e) : winList t e = t :: winList (t + 60) e := by
  unfold winList
  rw [numWin_succ h]
  rfl

theorem mem_winListN {n : Nat} {s w : Int} :
    w ∈ winListN n s ↔ ∃ k : Nat, k < n ∧ w = s + 60 * (k : Int) := by
  induction n generalizing s with
  | zero => simp [winListN]
  | succ n ih =>
    simp only [winListN, List.mem_cons, ih]
    constructor
    · rintro (rfl | ⟨k, hk, rfl⟩)
      · exact ⟨0, by omega, by omega⟩
      · exact ⟨k + 1, by omega, by push_cast; ring⟩
    · rintro ⟨k, hk, rfl⟩
      match k with
      | 0 => left; omega
      | k + 1 => right; exact ⟨k, by omega, by push_cast; ring⟩

theorem mem_winList {s e w : Int} :
    w ∈ winList s e ↔ ∃ k : Nat, k < numWin s e ∧ w = s + 60 * (k : Int) :=
  mem_winListN

/-! ## Step lemmas -/

theorem step1sec_t (fetch : Int → Except String (List PricePoint)) (s : St2) :
    (step1sec fetch s).t = s.t + 60 := by
  unfold step1sec
  cases h : fetch s.t with
  | ok rows =>
    by_cases hr : rows = [] <;> simp only [h, hr, if_pos, if_neg, ite_true, ite_false] <;>
      split <;> rfl
  | error msg => simp only [h] ; split <;> rfl

theorem step1sec_db (fetch : Int → Except String (List PricePoint)) (s : St2) :
    (step1sec fetch s).db =
      match fetch s.t with
      | Except.ok rows => if rows = [] then s.db else insertRowsDb s.db rows
      | Except.error _ => s.db := by
  unfold step1sec
  cases h : fetch s.t with
  | ok rows =>
    by_cases hr : rows = [] <;> simp only [h, hr, ite_true, ite_false] <;> split <;> rfl
  | error msg => simp only [h] ; split <;> rfl

theorem step1sec_fetchedWindows (fetch : Int → Except String (List PricePoint)) (s : St2) :
    (step1sec fetch s).fetchedWindows =
      if isErr (fetch s.t) then s.fetchedWindows else s.fetchedWindows + 1 := by
  unfold step1sec
  cases h : fetch s.t with
  | ok rows =>
    by_cases hr : rows = [] <;> simp only [h, hr, isErr, ite_true, ite_false] <;> split <;> rfl
  | error msg => simp only [h, isErr] ; split <;> rfl

theorem fetchTrace_append (l1 l2 : List Event) :
    fetchTrace (l1 ++ l2) = fetchTrace l1 ++ fetchTrace l2 := by
  unfold fetchTrace
  exact List.filterMap_append ..

theorem errTrace_append (l1 l2 : List Event) :
    errTrace (l1 ++ l2) = errTrace l1 ++ errTrace l2 := by
  unfold errTrace
  exact List.filterMap_append ..

theorem step1sec_fetchTrace (fetch : Int → Except String (List PricePoint)) (s : St2) :
    fetchTrace (step1sec fetch s).events = fetchTrace s.events ++ [s.t] := by
  unfold step1sec
  cases h : fetch s.t with
  | ok rows =>
    by_cases hr : rows = [] <;>
      simp only [h, hr, ite_true, ite_false] <;> split <;>
      simp [fetchTrace_append, fetchTrace]
  | error msg =>
    simp only [h] ; split <;> simp [fetchTrace_append, fetchTrace]

theorem step1sec_errTrace (fetch : Int → Except String (List PricePoint)) (s : St2) :
    errTrace (step1sec fetch s).events =
      errTrace s.events ++ (if isErr (fetch s.t) then [s.t] else []) := by
  unfold step1sec
  cases h : fetch s.t with
  | ok rows =>
    by_cases hr : rows = [] <;>
      simp only [h, hr, isErr, ite_true, ite_false] <;> split <;>
      simp [errTrace_append, errTrace]
  | error msg =>
    simp only [h, isErr] ; split <;> simp [errTrace_append, errTrace]

theorem step1sec_cp (fetch : Int → Except String (List PricePoint)) (s : St2) :
    (step1sec fetch s).cp = s.cp ∨ (step1sec fetch s).cp = some ((step1sec fetch s).t) := by
  unfold step1sec
  cases h : fetch s.t with
  | ok rows =>
    by_cases hr : rows = [] <;> simp only [h, hr, ite_true, ite_false] <;> split <;> simp
  | error msg => simp only [h] ; split <;> simp

/-! ## Master characterization of the 1sec loop (no window cap) -/

theorem sinkFold_append (fetch : Int → Except String (List PricePoint))
    (db : List PricePoint) (ws1 ws2 : List Int) :
    sinkFold fetch db (ws1 ++ ws2) = sinkFold fetch (sinkFold fetch db ws1) ws2 := by
  unfold sinkFold
  exact List.foldl_append ..

theorem cond1sec_true_iff (endTs : Int) (maxM : Option Nat) (s : St2) :
    cond1sec endTs maxM s = true ↔
      s.t < endTs ∧ (∀ m, maxM = some m → s.fetchedWindows < m) := by
  unfold cond1sec
  cases maxM with
  | none => simp
  | some m => simp

theorem cond1min_true_iff (endTs : Int) (maxM : Option Nat) (s : St1) :
    cond1min endTs maxM s = true ↔
      s.t < endTs ∧ (∀ m, maxM = some m → s.fetched < m) := by
  unfold cond1min
  cases maxM with
  | none => simp
  | some m => simp

/-- With no `max_minutes` cap and enough fuel, the 1sec loop processes
exactly the windows of `[s.t, endTs)`: the table becomes the sink fold over
them, the fetch trace extends by them, the error trace extends by the
failed ones, and the cursor lands one step past the last window. -/
theorem loopGo1sec_none (fetch : Int → Except String (List PricePoint)) (endTs : Int) :
    ∀ fuel : Nat, ∀ s : St2, numWin s.t endTs ≤ fuel →
      (loopGo1sec fetch endTs none fuel s).db = sinkFold fetch s.db (winList s.t endTs) ∧
      fetchTrace (loopGo1sec fetch endTs none fuel s).events =
        fetchTrace s.events ++ winList s.t endTs ∧
      errTrace (loopGo1sec fetch endTs none fuel s).events =
        errTrace s.events ++ errWins fetch (winList s.t endTs) ∧
      (loopGo1sec fetch endTs none fuel s).t = s.t + 60 * (numWin s.t endTs : Int) := by
  intro fuel
  induction fuel with
  | zero =>
    intro s hfuel
    have h0 : numWin s.t endTs = 0 := Nat.le_zero.mp hfuel
    have hle : endTs ≤ s.t := by
      by_contra hlt
      rw [numWin_succ (by omega)] at h0
      omega
    simp [loopGo1sec, winList_nil hle, h0, sinkFold, errWins]
  | succ fuel ih =>
    intro s hfuel
    by_cases hc : cond1sec endTs none s = true
    · have hlt : s.t < endTs := ((cond1sec_true_iff endTs none s).mp hc).1
      have hnw : numWin s.t endTs = numWin (s.t + 60) endTs + 1 := numWin_succ hlt
      have hstep_t : (step1sec fetch s).t = s.t + 60 := step1sec_t fetch s
      have hrec := ih (step1sec fetch s) (by rw [hstep_t]; omega)
      rw [hstep_t] at hrec
      obtain ⟨hdb, hft, het, ht⟩ := hrec
      simp only [loopGo1sec, hc, ite_true]
      refine ⟨?_, ?_, ?_, ?_⟩
      · rw [hdb, step1sec_db, winList_cons hlt]
        unfold sinkFold
        simp only [List.foldl_cons]
      · rw [hft, step1sec_fetchTrace, winList_cons hlt, List.append_assoc]
        rfl
      · rw [het, step1sec_errTrace, winList_cons hlt, List.append_assoc]
        unfold errWins
        cases h : isErr (fetch s.t) <;> simp [h]
      · rw [ht, hnw]
        push_cast
        ring
    · have hle : endTs ≤ s.t := by
        by_contra hlt
        exact hc ((cond1sec_true_iff endTs none s).mpr ⟨by omega, by intro m hm; cases hm⟩)
      simp [loopGo1sec, hc, winList_nil hle, numWin_eq_zero hle, sinkFold, errWins]

/-- The loop exit condition holds at the fuelled loop's result whenever the
fuel is at least `numWin`: the fuelled loop and the while loop agree. -/
theorem cond1sec_loopGo1sec (fetch : Int → Except String (List PricePoint)) (endTs : Int)
    (maxM : Option Nat) :
    ∀ fuel : Nat, ∀ s : St2, numWin s.t endTs ≤ fuel →
      cond1sec endTs maxM (loopGo1sec fetch endTs maxM fuel s) = false := by
  intro fuel
  induction fuel with
  | zero =>
    intro s hfuel
    have h0 : numWin s.t endTs = 0 := Nat.le_zero.mp hfuel
    have hle : endTs ≤ s.t := by
      by_contra hlt
      rw [numWin_succ (by omega)] at h0
      omega
    unfold loopGo1sec
    cases hc : cond1sec endTs maxM s with
    | false => rfl
    | true => exact absurd ((cond1sec_true_iff endTs maxM s).mp hc).1 (by omega)
  | succ fuel ih =>
    intro s hfuel
    by_cases hc : cond1sec endTs maxM s = true
    · have hlt : s.t < endTs := ((cond1sec_true_iff endTs maxM s).mp hc).1
      have hstep_t : (step1sec fetch s).t = s.t + 60 := step1sec_t fetch s
      have hrec := ih (step1sec fetch s) (by rw [hstep_t]; have := numWin_succ hlt; omega)
      simp only [loopGo1sec, hc, ite_true]
      exact hrec
    · have hc2 : cond1sec endTs maxM s = false := by
        cases h : cond1sec endTs maxM s with
        | false => rfl
        | true => exact absurd h hc
      simp only [loopGo1sec, hc2, Bool.false_eq_true, ite_false]

theorem step1min_t (fetch : Int → Except String (List PricePoint)) (s : St1) :
    (step1min fetch s).t = s.t + 60 := by
  unfold step1min flushFiles
  cases h : fetch s.t with
  | ok rows =>
    cases hr : one_price_per_minute rows <;>
      simp only [h, hr] <;> split <;> (try split) <;> rfl
  | error msg => simp only [h] ; split <;> (try split) <;> rfl

/-- Analogous fuel-sufficiency for the 1min loop. -/
theorem cond1min_loopGo1min (fetch : Int → Except String (List PricePoint)) (endTs : Int)
    (maxM : Option Nat) :
    ∀ fuel : Nat, ∀ s : St1, numWin s.t endTs ≤ fuel →
      cond1min endTs maxM (loopGo1min fetch endTs maxM fuel s) = false := by
  intro fuel
  induction fuel with
  | zero =>
    intro s hfuel
    have h0 : numWin s.t endTs = 0 := Nat.le_zero.mp hfuel
    have hle : endTs ≤ s.t := by
      by_contra hlt
      rw [numWin_succ (by omega)] at h0
      omega
    unfold loopGo1min
    cases hc : cond1min endTs maxM s with
    | false => rfl
    | true => exact absurd ((cond1min_true_iff endTs maxM s).mp hc).1 (by omega)
  | succ fuel ih =>
    intro s hfuel
    by_cases hc : cond1min endTs maxM s = true
    · have hlt : s.t < endTs := ((cond1min_true_iff endTs maxM s).mp hc).1
      have hstep_t : (step1min fetch s).t = s.t + 60 := step1min_t fetch s
      have hrec := ih (step1min fetch s) (by rw [hstep_t]; have := numWin_succ hlt; omega)
      simp only [loopGo1min, hc, ite_true]
      exact hrec
    · have hc2 : cond1min endTs maxM s = false := by
        cases h : cond1min endTs maxM s with
        | false => rfl
        | true => exact absurd h hc
      simp only [loopGo1min, hc2, Bool.false_eq_true, ite_false]

/-! ## Key algebra of the conflict-ignoring insert -/

theorem dbKeys_append (l1 l2 : List PricePoint) :
    dbKeys (l1 ++ l2) = dbKeys l1 ++ dbKeys l2 := by
  unfold dbKeys
  exact List.map_append ..

/-- Keys already in the table survive an insert. -/
theorem mem_dbKeys_insertRowsDb_of_mem {k : Int} (rows : List PricePoint) :
    ∀ table : List PricePoint, k ∈ dbKeys table → k ∈ dbKeys (insertRowsDb table rows) := by
  induction rows with
  | nil => intro table h; exact h
  | cons r rest ih =>
    intro table h
    unfold insertRowsDb
    simp only [List.foldl_cons]
    by_cases hr : r.timestamp ∈ dbKeys table
    · rw [if_pos hr]
      exact ih table h
    · rw [if_neg hr]
      exact ih (table ++ [r]) (by rw [dbKeys_append]; exact List.mem_append_left _ h)

/-- The key of every inserted row is in the table afterwards. -/
theorem mem_dbKeys_insertRowsDb_of_mem_rows {r : PricePoint} (rows : List PricePoint)
    (hr : r ∈ rows) :
    ∀ table : List PricePoint, r.timestamp ∈ dbKeys (insertRowsDb table rows) := by
  induction rows with
  | nil => cases hr
  | cons a rest ih =>
    intro table
    unfold insertRowsDb
    simp only [List.foldl_cons]
    rcases List.mem_cons.mp hr with rfl | hmem
    · by_cases ha : r.timestamp ∈ dbKeys table
      · rw [if_pos ha]
        exact mem_dbKeys_insertRowsDb_of_mem rest _ ha
      · rw [if_neg ha]
        exact mem_dbKeys_insertRowsDb_of_mem rest _
          (by rw [dbKeys_append]; exact List.mem_append_right _ (by simp [dbKeys]))
    · by_cases ha : a.timestamp ∈ dbKeys table
      · rw [if_pos ha]
        exact ih hmem table
      · rw [if_neg ha]
        exact ih hmem (table ++ [a])

/-- Inserting rows whose keys are all present is a no-op:
ON CONFLICT DO NOTHING. -/
theorem insertRowsDb_eq_of_mem (rows : List PricePoint) :
    ∀ table : List PricePoint, (∀ r ∈ rows, r.timestamp ∈ dbKeys table) →
      insertRowsDb table rows = table := by
  induction rows with
  | nil => intro table _; rfl
  | cons r rest ih =>
    intro table hall
    unfold insertRowsDb
    simp only [List.foldl_cons]
    rw [if_pos (hall r (List.mem_cons_self ..))]
    exact ih table (fun a ha => hall a (List.mem_cons_of_mem _ ha))

/-- The insert preserves key distinctness: at most one stored record per
timestamp. -/
theorem nodup_dbKeys_insertRowsDb (rows : List PricePoint) :
    ∀ table : List PricePoint, (dbKeys table).Nodup →
      (dbKeys (insertRowsDb table rows)).Nodup := by
  induction rows with
  | nil => intro table h; exact h
  | cons r rest ih =>
    intro table h
    unfold insertRowsDb
    simp only [List.foldl_cons]
    by_cases hr : r.timestamp ∈ dbKeys table
    · rw [if_pos hr]
      exact ih table h
    · rw [if_neg hr]
      exact ih (table ++ [r]) (by
        rw [dbKeys_append]
        simp only [dbKeys, List.map_cons, List.map_nil]
        exact List.Nodup.append h (List.nodup_singleton _)
          (by intro a ha hb; simp only [List.mem_singleton] at hb; subst hb; exact hr ha))

/-- Table keys survive a whole sink fold. -/
theorem mem_dbKeys_sinkFold_of_mem (fetch : Int → Except String (List PricePoint))
    {k : Int} (ws : List Int) :
    ∀ db : List PricePoint, k ∈ dbKeys db → k ∈ dbKeys (sinkFold fetch db ws) := by
  induction ws with
  | nil => intro db h; exact h
  | cons w rest ih =>
    intro db h
    unfold sinkFold
    simp only [List.foldl_cons]
    cases hf : fetch w with
    | ok rows =>
      by_cases hr : rows = []
      · simp only [hr, ite_true]
        exact ih db h
      · simp only [hr, ite_false]
        exact ih _ (mem_dbKeys_insertRowsDb_of_mem rows db h)
    | error msg => exact ih db h

/-- After the fold, every row of every successful non-empty window of `ws`
has its key in the table. -/
theorem mem_dbKeys_sinkFold_of_fetch (fetch : Int → Except String (List PricePoint))
    {w : Int} {rows : List PricePoint} {r : PricePoint} (ws : List Int) :
    ∀ db : List PricePoint, w ∈ ws → fetch w = Except.ok rows → r ∈ rows →
      r.timestamp ∈ dbKeys (sinkFold fetch db ws) := by
  induction ws with
  | nil => intro db h; cases h
  | cons a rest ih =>
    intro db hmem hf hr
    unfold sinkFold
    simp only [List.foldl_cons]
    rcases List.mem_cons.mp hmem with rfl | hmem2
    · rw [hf]
      have hne : rows ≠ [] := by
        intro h0
        rw [h0] at hr
        cases hr
      simp only [hne, ite_false]
      exact mem_dbKeys_sinkFold_of_mem fetch rest _
        (mem_dbKeys_insertRowsDb_of_mem_rows rows hr db)
    · cases hf2 : fetch a with
      | ok rows2 =>
        by_cases hr2 : rows2 = []
        · simp only [hr2, ite_true]
          exact ih db hmem2 hf hr
        · simp only [hr2, ite_false]
          exact ih _ hmem2 hf hr
      | error msg => exact ih db hmem2 hf hr

/-- A fold whose windows only yield rows with already-present keys is a
no-op. -/
theorem sinkFold_eq_of_mem (fetch : Int → Except String (List PricePoint)) (ws : List Int) :
    ∀ db : List PricePoint,
      (∀ w ∈ ws, ∀ rows, fetch w = Except.ok rows → ∀ r ∈ rows, r.timestamp ∈ dbKeys db) →
      sinkFold fetch db ws = db := by
  induction ws with
  | nil => intro db _; rfl
  | cons w rest ih =>
    intro db hall
    unfold sinkFold
    simp only [List.foldl_cons]
    cases hf : fetch w with
    | ok rows =>
      have hstep : insertRowsDb db rows = db :=
        insertRowsDb_eq_of_mem rows db (fun r hr => hall w (List.mem_cons_self ..) rows hf r hr)
      by_cases hr : rows = []
      · simp only [hr, ite_true]
        exact ih db (fun a ha => hall a (List.mem_cons_of_mem _ ha))
      · simp only [hr, ite_false, hstep]
        exact ih db (fun a ha => hall a (List.mem_cons_of_mem _ ha))
    | error msg => exact ih db (fun a ha => hall a (List.mem_cons_of_mem _ ha))

/-- Re-running the sink fold over the same windows changes nothing:
idempotence of the keyed, conflict-ignoring persistence. -/
theorem sinkFold_idem (fetch : Int → Except String (List PricePoint))
    (db : List PricePoint) (ws : List Int) :
    sinkFold fetch (sinkFold fetch db ws) ws = sinkFold fetch db ws := by
  apply sinkFold_eq_of_mem
  intro w hw rows hf r hr
  exact mem_dbKeys_sinkFold_of_fetch fetch ws db hw hf hr

/-- The sink fold keeps key distinctness. -/
theorem nodup_dbKeys_sinkFold (fetch : Int → Except String (List PricePoint)) (ws : List Int) :
    ∀ db : List PricePoint, (dbKeys db).Nodup → (dbKeys (sinkFold fetch db ws)).Nodup := by
  induction ws with
  | nil => intro db h; exact h
  | cons w rest ih =>
    intro db h
    unfold sinkFold
    simp only [List.foldl_cons]
    cases hf : fetch w with
    | ok rows =>
      by_cases hr : rows = []
      · simp only [hr, ite_true]
        exact ih db h
      · simp only [hr, ite_false]
        exact ih _ (nodup_dbKeys_insertRowsDb rows db h)
    | error msg => exact ih db h

/-- Skipping a failed window: the fold over a window list containing a
failing window equals the fold with that window removed. -/
theorem sinkFold_erase_err (fetch : Int → Except String (List PricePoint))
    (db : List PricePoint) (ws1 ws2 : List Int) {w : Int}
    (hf : isErr (fetch w) = true) :
    sinkFold fetch db (ws1 ++ w :: ws2) = sinkFold fetch db (ws1 ++ ws2) := by
  rw [sinkFold_append, sinkFold_append]
  generalize sinkFold fetch db ws1 = d
  unfold sinkFold
  simp only [List.foldl_cons]
  cases hfw : fetch w with
  | ok rows =>
    rw [hfw] at hf
    simp [isErr] at hf
  | error msg => rfl

/-! ## Checkpoint lag invariant -/

theorem step1min_cp (fetch : Int → Except String (List PricePoint)) (s : St1) :
    (step1min fetch s).cp = s.cp ∨ (step1min fetch s).cp = some ((step1min fetch s).t) := by
  unfold step1min flushFiles
  cases h : fetch s.t with
  | ok rows =>
    cases hr : one_price_per_minute rows <;>
      simp only [h, hr] <;> split <;> (try split) <;> simp
  | error msg => simp only [h] ; split <;> (try split) <;> simp

/-- Along any run of the 1sec loop, a present checkpoint value never
exceeds the cursor (so resuming from it never skips an unattempted
window). -/
theorem cp_le_t_loopGo1sec (fetch : Int → Except String (List PricePoint)) (endTs : Int)
    (maxM : Option Nat) :
    ∀ fuel : Nat, ∀ s : St2, (∀ v, s.cp = some v → v ≤ s.t) →
      ∀ v, (loopGo1sec fetch endTs maxM fuel s).cp = some v →
        v ≤ (loopGo1sec fetch endTs maxM fuel s).t := by
  intro fuel
  induction fuel with
  | zero =>
    intro s hs v hv
    exact hs v hv
  | succ fuel ih =>
    intro s hs v hv
    by_cases hc : cond1sec endTs maxM s = true
    · simp only [loopGo1sec, hc, ite_true] at hv ⊢
      refine ih (step1sec fetch s) ?_ v hv
      intro w hw
      rcases step1sec_cp fetch s with heq | heq
      · rw [heq] at hw
        have := hs w hw
        rw [step1sec_t]
        omega
      · rw [heq] at hw
        injection hw with hw2
        omega
    · have hc2 : cond1sec endTs maxM s = false := by
        cases h : cond1sec endTs maxM s with
        | false => rfl
        | true => exact absurd h hc
      simp only [loopGo1sec, hc2, Bool.false_eq_true, ite_false] at hv ⊢
      exact hs v hv

/-- The same invariant for the 1min loop. -/
theorem cp_le_t_loopGo1min (fetch : Int → Except String (List PricePoint)) (endTs : Int)
    (maxM : Option Nat) :
    ∀ fuel : Nat, ∀ s : St1, (∀ v, s.cp = some v → v ≤ s.t) →
      ∀ v, (loopGo1min fetch endTs maxM fuel s).cp = some v →
        v ≤ (loopGo1min fetch endTs maxM fuel s).t := by
  intro fuel
  induction fuel with
  | zero =>
    intro s hs v hv
    exact hs v hv
  | succ fuel ih =>
    intro s hs v hv
    by_cases hc : cond1min endTs maxM s = true
    · simp only [loopGo1min, hc, ite_true] at hv ⊢
      refine ih (step1min fetch s) ?_ v hv
      intro w hw
      rcases step1min_cp fetch s with heq | heq
      · rw [heq] at hw
        have := hs w hw
        rw [step1min_t]
        omega
      · rw [heq] at hw
        injection hw with hw2
        omega
    · have hc2 : cond1min endTs maxM s = false := by
        cases h : cond1min endTs maxM s with
        | false => rfl
        | true => exact absurd h hc
      simp only [loopGo1min, hc2, Bool.false_eq_true, ite_false] at hv ⊢
      exact hs v hv

/-! ## The loop under a window cap, with an all-successful fetch -/

/-- With `max_minutes = m` and a fetch that never fails, the 1sec loop
attempts exactly the first `min (numWin) (m - already fetched)` windows. -/
theorem loopGo1sec_some (fetch : Int → Except String (List PricePoint)) (endTs : Int)
    (m : Nat) (hok : ∀ w, isErr (fetch w) = false) :
    ∀ fuel : Nat, ∀ s : St2, numWin s.t endTs ≤ fuel →
      fetchTrace (loopGo1sec fetch endTs (some m) fuel s).events =
        fetchTrace s.events ++
          winListN (min (numWin s.t endTs) (m - s.fetchedWindows)) s.t := by
  intro fuel
  induction fuel with
  | zero =>
    intro s hfuel
    have h0 : numWin s.t endTs = 0 := Nat.le_zero.mp hfuel
    simp [loopGo1sec, h0, winListN]
  | succ fuel ih =>
    intro s hfuel
    by_cases hc : cond1sec endTs (some m) s = true
    · obtain ⟨hlt, hm⟩ := (cond1sec_true_iff endTs (some m) s).mp hc
      have hm2 : s.fetchedWindows < m := hm m rfl
      have hnw : numWin s.t endTs = numWin (s.t + 60) endTs + 1 := numWin_succ hlt
      have hstep_t : (step1sec fetch s).t = s.t + 60 := step1sec_t fetch s
      have hstep_fw : (step1sec fetch s).fetchedWindows = s.fetchedWindows + 1 := by
        rw [step1sec_fetchedWindows, hok s.t, if_neg]
        simp
      have hrec := ih (step1sec fetch s) (by rw [hstep_t]; omega)
      rw [hstep_t, hstep_fw] at hrec
      simp only [loopGo1sec, hc, ite_true]
      rw [hrec, step1sec_fetchTrace]
      have hmin : min (numWin s.t endTs) (m - s.fetchedWindows) =
          min (numWin (s.t + 60) endTs) (m - (s.fetchedWindows + 1)) + 1 := by
        omega
      rw [hmin]
      simp only [winListN, List.append_assoc]
      rfl
    · have hc2 : cond1sec endTs (some m) s = false := by
        cases h : cond1sec endTs (some m) s with
        | false => rfl
        | true => exact absurd h hc
      have hend : numWin s.t endTs = 0 ∨ m - s.fetchedWindows = 0 := by
        by_contra hcon
        push_neg at hcon
        obtain ⟨h1, h2⟩ := hcon
        have hlt : s.t < endTs := by
          by_contra hge
          exact h1 (numWin_eq_zero (by omega))
        exact absurd ((cond1sec_true_iff endTs (some m) s).mpr
          ⟨hlt, by intro k hk; injection hk with hk2; omega⟩) (by rw [hc2]; simp)
      simp only [loopGo1sec, hc2, Bool.false_eq_true, ite_false]
      rcases hend with h0 | h0 <;> simp [h0, winListN]

/-- The loop's exit always has the cursor at or past the end timestamp
when no window cap is given. -/
theorem endTs_le_start_add (s e : Int) : e ≤ s + 60 * (numWin s e : Int) := by
  unfold numWin
  have h1 := Nat.div_add_mod (e - s + 59).toNat 60
  have h2 : (e - s + 59).toNat % 60 < 60 := Nat.mod_lt _ (by norm_num)
  omega

/-- Every window of the range lies strictly before the end timestamp. -/
theorem win_lt (s e : Int) (k : Nat) (hk : k < numWin s e) : s + 60 * (k : Int) < e := by
  unfold numWin at hk
  have h1 := Nat.div_add_mod (e - s + 59).toNat 60
  have h2 : (e - s + 59).toNat % 60 < 60 := Nat.mod_lt _ (by norm_num)
  omega

/-- Whether an `Except` result is a success. -/
def exOk {α : Type} : Except String α → Bool
  | Except.ok _ => true
  | Except.error _ => false

/-! ## Concrete fixtures used by witnesses and counterexamples -/

/-- A fetch that always succeeds with an empty window. -/
def okEmptyFetch : Int → Except String (List PricePoint) :=
  fun _ => Except.ok []

/-- A fetch that returns one point per window, keyed by the window start. -/
def selfFetch : Int → Except String (List PricePoint) :=
  fun t => Except.ok [{ timestamp := t, price := none, conf := none }]

/-- The spec scenario fetch: one point per window, but window 1060 raises a
transient error. -/
def failAt1060 : Int → Except String (List PricePoint) :=
  fun t => if t = 1060 then Except.error "boom"
    else Except.ok [{ timestamp := t, price := none, conf := none }]

/-- A fresh 1min loop state at cursor `t`. -/
def st1Init (t : Int) : St1 :=
  { t := t, fetched := 0, allRows := [], cp := none, csvFile := none, events := [] }

/-- A fresh 1sec loop state at cursor `t` over table `db`. -/
def st2Init (t : Int) (db : List PricePoint) : St2 :=
  { t := t, fetchedWindows := 0, totalInserted := 0, db := db, cp := none, events := [] }

set_option maxRecDepth 100000

/-! ## Claim C1 -/

/-- C1 as stated is false: a 1min run whose body raises after 100
completed windows (each successful, so a checkpoint save happened with
value 6000) still ends with no checkpoint file, because the finally block
unlinks it unconditionally. -/
theorem C1_counterexample :
    (loopGo1min okEmptyFetch 7200 none 100 (st1Init 0)).cp = some 6000 ∧
    (crash1min okEmptyFetch 7200 none 100 (st1Init 0)).cp = none ∧
    (loopGo1sec okEmptyFetch 7200 none 100 (st2Init 0 [])).cp = some 6000 ∧
    (crash1sec okEmptyFetch 7200 none 100 (st2Init 0 [])).cp = none := by
  decide

/-- C1 amended: both scripts clear the checkpoint file on every exit that
runs the finally block — exceptional exits included, after any number of
completed iterations — so a resume point survives only a termination that
skips the finally block (e.g. SIGKILL), which is outside the model. -/
theorem C1_checkpoint_cleared_on_every_exit
    (fetch : Int → Except String (List PricePoint)) (alignedStart endTs : Int)
    (resume : Option Int) (existingCsv : Option (List PricePoint)) (cp0 : Option Int)
    (maxM : Option Nat) (k : Nat) (init1 : St1)
    (db0 : List PricePoint) (init2 : St2) :
    (run1min fetch alignedStart endTs resume existingCsv cp0 maxM).cp = none ∧
    (crash1min fetch endTs maxM k init1).cp = none ∧
    (run1sec fetch alignedStart endTs resume db0 cp0 maxM).cp = none ∧
    (crash1sec fetch endTs maxM k init2).cp = none :=
  ⟨rfl, rfl, rfl, rfl⟩

/-! ## Claim C3 -/

/-- C3 as stated is false at concrete inputs: (a) in the 1sec script a
non-empty store with last timestamp 120 and no resume argument yields
effective start 121 — one second, not one 60s step (which would be 180);
(b) a resume value 100 (exactly what `--resume` passes from the checkpoint
file) makes the store value 500 irrelevant, so the checkpoint-derived value
outranks the store, not the other way around. -/
theorem C3_counterexample :
    effStart1sec 0 none (some 120) = 121 ∧ (120 + 60 : Int) = 180 ∧
    effStart1sec 0 (some 100) (some 500) = 100 ∧
    effStart1min 0 (some 100) [500] = 100 := by
  decide

/-- C3 amended: when `resume_from_ts` is supplied (either directly or as
the checkpoint value forwarded by `--resume`) the effective start is
`max(computed start, resume)` and the store is not consulted; otherwise,
with a non-empty store, it is `max(computed start, last + 60)` in the 1min
variant but `max(computed start, last + 1)` in the 1sec variant; otherwise
it is the computed range start. -/
theorem C3_effective_start (a r lastTs : Int) (dbLast : Option Int) (ts : List Int) :
    effStart1sec a (some r) dbLast = max a r ∧
    effStart1min a (some r) ts = max a r ∧
    effStart1sec a none (some lastTs) = max a (lastTs + 1) ∧
    effStart1sec a none none = a ∧
    (ts.max? = some lastTs → effStart1min a none ts = max a (lastTs + 60)) ∧
    effStart1min a none [] = a := by
  refine ⟨?_, ?_, rfl, rfl, ?_, rfl⟩
  · unfold effStart1sec
    cases dbLast <;> rfl
  · unfold effStart1min
    cases h : ts.max? <;> rfl
  · intro h
    unfold effStart1min
    rw [h]

/-- Witness for the amended C3 at concrete inputs. -/
theorem C3_effective_start_witness :
    effStart1min 0 none [40, 100] = 160 := by
  have h := (C3_effective_start 0 0 100 none [40, 100]).2.2.2.2.1 (by decide)
  rw [h]
  decide

/-! ## Claim C4 -/

/-- C4 as stated is false for the 1min file variant: it appends rows with
no timestamp keying, so a second run over the same range, resumed into the
already-covered range with `resume_from_ts = 0`, stores the timestamp-0 row
twice. -/
theorem C4_counterexample :
    ((run1min selfFetch 0 120 (some 0)
        (run1min selfFetch 0 120 none none none none).csvFile none none).csvFile.getD
      []).countP (fun p => p.timestamp = 0) = 2 := by
  decide

/-- C4 amended: the DB (1sec) variant is idempotent — its inserts are
keyed by timestamp with ignore-on-conflict, so running the loop a second
time over the same `[start_ts, end_ts)` range leaves the table unchanged,
and key distinctness (at most one record per timestamp) is preserved from
any run's starting table.  The 1min file variant has no such keying (see
the counterexample). -/
theorem C4_db_idempotent (fetch : Int → Except String (List PricePoint))
    (start endTs : Int) (db0 : List PricePoint) :
    (loopGo1sec fetch endTs none (numWin start endTs)
        (st2Init start
          (loopGo1sec fetch endTs none (numWin start endTs) (st2Init start db0)).db)).db =
      (loopGo1sec fetch endTs none (numWin start endTs) (st2Init start db0)).db ∧
    ((dbKeys db0).Nodup →
      (dbKeys (loopGo1sec fetch endTs none (numWin start endTs) (st2Init start db0)).db).Nodup) := by
  have h1 := (loopGo1sec_none fetch endTs (numWin start endTs) (st2Init start db0)
    (le_refl _)).1
  constructor
  · have h2 := (loopGo1sec_none fetch endTs (numWin start endTs)
      (st2Init start (loopGo1sec fetch endTs none (numWin start endTs) (st2Init start db0)).db)
      (le_refl _)).1
    rw [h2, h1]
    exact sinkFold_idem fetch db0 (winList start endTs)
  · intro hnd
    rw [h1]
    exact nodup_dbKeys_sinkFold fetch (winList start endTs) db0 hnd

/-- Witness for the amended C4: two identical runs over `[0, 120)` give a
table that is unchanged by the second run and has distinct keys. -/
theorem C4_db_idempotent_witness :
    (loopGo1sec selfFetch 120 none (numWin 0 120)
        (st2Init 0 (loopGo1sec selfFetch 120 none (numWin 0 120) (st2Init 0 [])).db)).db =
      (loopGo1sec selfFetch 120 none (numWin 0 120) (st2Init 0 [])).db ∧
    (dbKeys (loopGo1sec selfFetch 120 none (numWin 0 120) (st2Init 0 [])).db).Nodup := by
  refine ⟨(C4_db_idempotent selfFetch 0 120 []).1,
    (C4_db_idempotent selfFetch 0 120 []).2 ?_⟩
  decide

/-! ## Claim C5 -/

/-- C5 as stated is false: during a 1sec run over `[0, 7200)` with every
fetch succeeding, the state after 101 iterations — an intermediate state of
the full run, as the factorization conjunct shows — has the checkpoint file
present with value 6000 while window 6000 has already been fetched and the
first not-yet-fetched window start is 6060. -/
theorem C5_counterexample :
    (loopGo1sec okEmptyFetch 7200 none 101 (st2Init 0 [])).cp = some 6000 ∧
    (loopGo1sec okEmptyFetch 7200 none 101 (st2Init 0 [])).t = 6060 ∧
    Event.fetchAt 6000 ∈ (loopGo1sec okEmptyFetch 7200 none 101 (st2Init 0 [])).events ∧
    loopGo1sec okEmptyFetch 7200 none (numWin 0 7200) (st2Init 0 []) =
      loopGo1sec okEmptyFetch 7200 none 19
        (loopGo1sec okEmptyFetch 7200 none 101 (st2Init 0 [])) := by
  decide

/-- C5 amended: each iteration either leaves the checkpoint file unchanged
or (every 100th successful window) rewrites it with the just-advanced
cursor, i.e. the next unfetched window start at that moment; consequently,
in every state reached from a checkpoint-consistent state, a present
checkpoint value never exceeds the cursor — resuming from it never skips
an unfetched window, though it may re-fetch windows completed since the
last save. -/
theorem C5_checkpoint_lag (fetch : Int → Except String (List PricePoint))
    (endTs : Int) (maxM : Option Nat) (fuel : Nat) (s2 : St2) (s1 : St1) :
    ((step1sec fetch s2).cp = s2.cp ∨
      (step1sec fetch s2).cp = some ((step1sec fetch s2).t)) ∧
    ((step1min fetch s1).cp = s1.cp ∨
      (step1min fetch s1).cp = some ((step1min fetch s1).t)) ∧
    ((∀ v, s2.cp = some v → v ≤ s2.t) →
      ∀ v, (loopGo1sec fetch endTs maxM fuel s2).cp = some v →
        v ≤ (loopGo1sec fetch endTs maxM fuel s2).t) ∧
    ((∀ v, s1.cp = some v → v ≤ s1.t) →
      ∀ v, (loopGo1min fetch endTs maxM fuel s1).cp = some v →
        v ≤ (loopGo1min fetch endTs maxM fuel s1).t) := by
  exact ⟨step1sec_cp fetch s2, step1min_cp fetch s1,
    fun h => cp_le_t_loopGo1sec fetch endTs maxM fuel s2 h,
    fun h => cp_le_t_loopGo1min fetch endTs maxM fuel s1 h⟩

/-- Witness for the amended C5: in the concrete mid-run state of the
counterexample the checkpoint value 6000 is indeed at or below the
cursor. -/
theorem C5_checkpoint_lag_witness :
    (6000 : Int) ≤ (loopGo1sec okEmptyFetch 7200 none 101 (st2Init 0 [])).t := by
  refine (C5_checkpoint_lag okEmptyFetch 7200 none 101 (st2Init 0 []) (st1Init 0)).2.2.1
    ?_ 6000 (by decide)
  intro v h
  cases h

/-! ## Claim C6 -/

/-- C6 confirmed: a window `w` whose fetch raises is only logged — every
window of the range is still attempted in order, the failed window
contributes nothing to the table while every other window's rows are
persisted, the cursor passes one step beyond every window, and the loop
reaches its normal exit condition. -/
theorem C6_transient_failure_nonfatal (fetch : Int → Except String (List PricePoint))
    (start endTs w : Int) (db0 : List PricePoint) (msg : String)
    (hf : fetch w = Except.error msg) :
    fetchTrace (loopGo1sec fetch endTs none (numWin start endTs)
        (st2Init start db0)).events = winList start endTs ∧
    (w ∈ winList start endTs →
      w ∈ errTrace (loopGo1sec fetch endTs none (numWin start endTs)
        (st2Init start db0)).events) ∧
    (loopGo1sec fetch endTs none (numWin start endTs) (st2Init start db0)).db =
      sinkFold fetch db0 (winList start endTs) ∧
    (∀ ws1 ws2, winList start endTs = ws1 ++ w :: ws2 →
      (loopGo1sec fetch endTs none (numWin start endTs) (st2Init start db0)).db =
        sinkFold fetch db0 (ws1 ++ ws2)) ∧
    (∀ u rows r, u ∈ winList start endTs → fetch u = Except.ok rows → r ∈ rows →
      r.timestamp ∈ dbKeys (loopGo1sec fetch endTs none (numWin start endTs)
        (st2Init start db0)).db) ∧
    (loopGo1sec fetch endTs none (numWin start endTs) (st2Init start db0)).t =
      start + 60 * (numWin start endTs : Int) ∧
    cond1sec endTs none
      (loopGo1sec fetch endTs none (numWin start endTs) (st2Init start db0)) = false := by
  have herr : isErr (fetch w) = true := by rw [hf]; rfl
  obtain ⟨hdb, hft, het, ht⟩ :=
    loopGo1sec_none fetch endTs (numWin start endTs) (st2Init start db0) (le_refl _)
  simp only [st2Init] at hdb hft het ht ⊢
  refine ⟨?_, ?_, hdb, ?_, ?_, ht, ?_⟩
  · rw [hft]; rfl
  · intro hw
    rw [het]
    show w ∈ errTrace [] ++ errWins fetch (winList start endTs)
    refine List.mem_append_right _ ?_
    exact List.mem_filter.mpr ⟨hw, herr⟩
  · intro ws1 ws2 hsplit
    rw [hdb, hsplit]
    exact sinkFold_erase_err fetch db0 ws1 ws2 herr
  · intro u rows r hu hfu hr
    rw [hdb]
    exact mem_dbKeys_sinkFold_of_fetch fetch (winList start endTs) db0 hu hfu hr
  · exact cond1sec_loopGo1sec fetch endTs none (numWin start endTs) (st2Init start db0)
      (le_refl _)

/-- Witness for C6: the spec scenario — range `[1000, 1180)`, `fetch(1060)`
raises — persists exactly the rows for 1000 and 1120, logs 1060, still
attempts all three windows, and exits normally. -/
theorem C6_transient_failure_nonfatal_witness :
    dbKeys (loopGo1sec failAt1060 1180 none (numWin 1000 1180)
      (st2Init 1000 [])).db = [1000, 1120] ∧
    (1060 : Int) ∈ errTrace (loopGo1sec failAt1060 1180 none (numWin 1000 1180)
      (st2Init 1000 [])).events ∧
    fetchTrace (loopGo1sec failAt1060 1180 none (numWin 1000 1180)
      (st2Init 1000 [])).events = [1000, 1060, 1120] ∧
    cond1sec 1180 none (loopGo1sec failAt1060 1180 none (numWin 1000 1180)
      (st2Init 1000 [])) = false := by
  refine ⟨by decide,
    (C6_transient_failure_nonfatal failAt1060 1000 1180 1060 [] "boom" rfl).2.1
      (by decide),
    by decide, by decide⟩

/-! ## Claim C7 -/

/-- C7 confirmed: the loop attempts exactly the window starts
`start, start+60, ...` strictly below `end_ts`; it stops with the cursor at
`start + 60 * numWin`, the first multiple at or past `end_ts`, where the
while condition fails; and under a window cap `m` (with an all-successful
fetch, so that the success counter counts every window) it attempts exactly
the first `min (numWin) m` windows. -/
theorem C7_window_enumeration (fetch : Int → Except String (List PricePoint))
    (start endTs : Int) (db0 : List PricePoint) (m : Nat) :
    fetchTrace (loopGo1sec fetch endTs none (numWin start endTs)
      (st2Init start db0)).events = winList start endTs ∧
    (∀ w, w ∈ winList start endTs ↔
      ∃ k : Nat, k < numWin start endTs ∧ w = start + 60 * (k : Int)) ∧
    (∀ w ∈ winList start endTs, start ≤ w ∧ w < endTs) ∧
    (loopGo1sec fetch endTs none (numWin start endTs) (st2Init start db0)).t =
      start + 60 * (numWin start endTs : Int) ∧
    endTs ≤ (loopGo1sec fetch endTs none (numWin start endTs) (st2Init start db0)).t ∧
    cond1sec endTs none
      (loopGo1sec fetch endTs none (numWin start endTs) (st2Init start db0)) = false ∧
    ((∀ u, isErr (fetch u) = false) →
      fetchTrace (loopGo1sec fetch endTs (some m) (numWin start endTs)
        (st2Init start db0)).events = winListN (min (numWin start endTs) m) start) := by
  obtain ⟨hdb, hft, het, ht⟩ :=
    loopGo1sec_none fetch endTs (numWin start endTs) (st2Init start db0) (le_refl _)
  simp only [st2Init] at hdb hft het ht ⊢
  refine ⟨?_, ?_, ?_, ht, ?_, ?_, ?_⟩
  · rw [hft]; rfl
  · intro w
    exact mem_winList
  · intro w hw
    obtain ⟨k, hk, rfl⟩ := mem_winList.mp hw
    exact ⟨by omega, win_lt start endTs k hk⟩
  · rw [ht]
    exact endTs_le_start_add start endTs
  · exact cond1sec_loopGo1sec fetch endTs none (numWin start endTs) (st2Init start db0)
      (le_refl _)
  · intro hok
    have h := loopGo1sec_some fetch endTs m hok (numWin start endTs) (st2Init start db0)
      (le_refl _)
    simp only [st2Init, Nat.sub_zero] at h
    rw [h]
    rfl

/-- Witness for C7: the spec scenario `step=60`, `start=1000`, `end=1180`
attempts exactly windows 1000, 1060, 1120, persists exactly those three
timestamps, ends with the cursor at 1180, and with `max_minutes = 2` stops
after the first two windows. -/
theorem C7_window_enumeration_witness :
    fetchTrace (loopGo1sec selfFetch 1180 none (numWin 1000 1180)
      (st2Init 1000 [])).events = [1000, 1060, 1120] ∧
    dbKeys (loopGo1sec selfFetch 1180 none (numWin 1000 1180)
      (st2Init 1000 [])).db = [1000, 1060, 1120] ∧
    (loopGo1sec selfFetch 1180 none (numWin 1000 1180) (st2Init 1000 [])).t = 1180 ∧
    fetchTrace (loopGo1sec selfFetch 1180 (some 2) (numWin 1000 1180)
      (st2Init 1000 [])).events = [1000, 1060] := by
  refine ⟨by decide, by decide, by decide, ?_⟩
  have h := (C7_window_enumeration selfFetch 1000 1180 [] 2).2.2.2.2.2.2
    (fun u => by unfold selfFetch isErr; rfl)
  rw [h]
  decide

/-! ## Claim C8 -/

/-- C8 as stated is false for the 1sec script: a clean run over one window
that persisted a row ends with an event trace whose exit path appended no
sink event — the only sink call in the whole trace is the in-loop insert,
and the finally block leaves the trace untouched. -/
theorem C8_counterexample :
    (run1sec selfFetch 1000 1060 none [] none none).events =
      [Event.fetchAt 1000, Event.sink [1000]] ∧
    (finally1sec (loopGo1sec selfFetch 1060 none (numWin 1000 1060)
        (st2Init 1000 []))).events =
      (loopGo1sec selfFetch 1060 none (numWin 1000 1060) (st2Init 1000 [])).events ∧
    (loopGo1sec selfFetch 1060 none (numWin 1000 1060) (st2Init 1000 [])).db ≠ [] := by
  decide

/-- C8 amended: on every exit of the 1min loop — after any number of
completed iterations, clean or exceptional — the finally block rewrites the
output files with every accumulated row, provided any exist; the 1sec
script performs no final sink call on exit, but needs none: its finally
block leaves the table exactly as the per-window committed inserts left
it. -/
theorem C8_exit_flush (fetch : Int → Except String (List PricePoint))
    (endTs : Int) (maxM : Option Nat) (k : Nat) (s1 : St1) (s2 : St2) :
    (s1.allRows ≠ [] → (finally1min s1).csvFile = some s1.allRows) ∧
    ((loopGo1min fetch endTs maxM k s1).allRows ≠ [] →
      (crash1min fetch endTs maxM k s1).csvFile =
        some (loopGo1min fetch endTs maxM k s1).allRows) ∧
    (finally1sec s2).db = s2.db ∧
    (finally1sec s2).events = s2.events := by
  have hgen : ∀ s : St1, s.allRows ≠ [] → (finally1min s).csvFile = some s.allRows := by
    intro s h
    unfold finally1min flushFiles
    rw [if_neg h, if_neg h]
  exact ⟨hgen s1, hgen (loopGo1min fetch endTs maxM k s1), rfl, rfl⟩

/-- Witness for the amended C8: a 1min run interrupted after one window
still has its accumulated row flushed to the CSV by the finally block. -/
theorem C8_exit_flush_witness :
    (crash1min selfFetch 120 none 1 (st1Init 0)).csvFile =
      some [{ timestamp := 0, price := none, conf := none }] := by
  have h := (C8_exit_flush selfFetch 120 none 1 (st1Init 0) (st2Init 0 [])).2.1 (by decide)
  rw [h]
  decide

/-! ## Claim C2 -/

/-- An item whose `price` is a non-numeric string (parse failure). -/
def itemBadPrice : ParsedItem :=
  ⟨"ab", some (Jv.jstr "xyz"), some 0, some 5, some (Jv.jstr "0")⟩

/-- A well-formed item at publish time 3. -/
def itemGoodA : ParsedItem := ⟨"ab", some (Jv.jnum 1), some 0, some 3, some Jv.jnull⟩

/-- An item with no `price` field. -/
def itemMissingPrice : ParsedItem := ⟨"ab", none, some 0, some 4, some Jv.jnull⟩

/-- A well-formed item at publish time 5. -/
def itemGoodB : ParsedItem := ⟨"ab", some (Jv.jnum 2), some 0, some 5, some Jv.jnull⟩

/-- An item whose `conf` key is absent. -/
def itemNoConf : ParsedItem := ⟨"ab", some (Jv.jstr "5"), some 0, some 7, none⟩

/-- A dummy price point. -/
def dummyPt : PricePoint := ⟨0, none, none⟩

/-- C2 as stated is false for the 1min script: an item whose `price` fails
integer parsing (the string "xyz") is not dropped — `fetch_window` returns
it with `price = None`, `conf = None`. -/
theorem C2_counterexample :
    fetchRows1min "ab" [[itemBadPrice]] = [{ timestamp := 5, price := none, conf := none }] ∧
    fetchRows1min "ab" [[itemBadPrice]] ≠ [] := by
  decide

/-- C2 amended: in the 1sec script an item with a missing `price` or
`publish_time`, a `price` failing `int(...)`, or a truthy `conf` failing
`int(...)` is dropped, and the surrounding well-formed items of the same
response are kept in order; the 1min script drops items with missing
`price`/`publish_time` too, but keeps a parse-failing item as a row with
null price and conf. -/
theorem C2_malformed_items (fid : String) (p w : ParsedItem) (rv : Jv) (ts : Int)
    (pre post : List ParsedItem) (pt : PricePoint) :
    (p.price = none → processItem1sec fid p = none) ∧
    (p.publish_time = none → processItem1sec fid p = none) ∧
    (p.price = some rv → pyInt rv = none → processItem1sec fid p = none) ∧
    (truthy (p.conf.getD (Jv.jstr "0")) = true →
      pyInt (p.conf.getD (Jv.jstr "0")) = none → processItem1sec fid p = none) ∧
    (processItem1sec fid p = none →
      (pre ++ p :: post).filterMap (processItem1sec fid) =
        (pre ++ post).filterMap (processItem1sec fid)) ∧
    (processItem1sec fid w = some pt →
      (pre ++ w :: post).filterMap (processItem1sec fid) =
        pre.filterMap (processItem1sec fid) ++ pt :: post.filterMap (processItem1sec fid)) ∧
    (itemIdNorm p.id = fid → p.price = some rv → pyInt rv = none →
      p.publish_time = some ts →
      processItem1min fid p = some { timestamp := ts, price := none, conf := none }) := by
  refine ⟨?_, ?_, ?_, ?_, ?_, ?_, ?_⟩
  · intro h
    unfold processItem1sec
    rw [h]
    split
    · rfl
    · cases p.publish_time <;> rfl
  · intro h
    unfold processItem1sec
    rw [h]
    split
    · rfl
    · cases p.price <;> rfl
  · intro h1 h2
    unfold processItem1sec
    rw [h1]
    split
    · rfl
    · cases p.publish_time with
      | none => rfl
      | some u =>
        dsimp only
        rw [h2]
  · intro h1 h2
    unfold processItem1sec
    split
    · rfl
    · cases p.price with
      | none => rfl
      | some rv2 =>
        cases p.publish_time with
        | none => rfl
        | some u =>
          dsimp only
          cases hp : pyInt rv2 with
          | none => rfl
          | some n => simp [h1, h2]
  · intro h
    rw [List.filterMap_append, List.filterMap_append, List.filterMap_cons, h]
  · intro h
    rw [List.filterMap_append, List.filterMap_cons, h]
  · intro hid h1 h2 h3
    unfold processItem1min
    rw [if_neg (by rw [hid]; exact fun hne => hne rfl), h1, h3]
    dsimp only
    rw [h2]

/-- Witness for the amended C2: an item missing its `price` is dropped
while its two well-formed neighbours survive, and the parse-failing item is
kept by the 1min variant with null price and conf. -/
theorem C2_malformed_items_witness :
    List.filterMap (processItem1sec "ab") [itemGoodA, itemMissingPrice, itemGoodB] =
      List.filterMap (processItem1sec "ab") [itemGoodA, itemGoodB] ∧
    processItem1min "ab" itemBadPrice =
      some { timestamp := 5, price := none, conf := none } := by
  constructor
  · exact (C2_malformed_items "ab" itemMissingPrice itemMissingPrice Jv.jnull 0
      [itemGoodA] [itemGoodB] dummyPt).2.2.2.2.1
      ((C2_malformed_items "ab" itemMissingPrice itemMissingPrice Jv.jnull 0
        [] [] dummyPt).1 rfl)
  · exact (C2_malformed_items "ab" itemBadPrice itemBadPrice (Jv.jstr "xyz") 5
      [] [] dummyPt).2.2.2.2.2.2 (by decide) rfl (by decide) rfl

/-! ## Claim C9 -/

/-- C9 as stated is false: an item whose `conf` key is absent produces a
point whose confidence is *present* (the code defaults `conf` to the truthy
string "0", yielding confidence 0), not null; and the 1min script can
produce points whose price is null rather than `raw * 10^expo`. -/
theorem C9_counterexample :
    (processItem1sec "ab" itemNoConf).map (fun q => q.conf.isSome) = some true ∧
    (processItem1min "ab" itemBadPrice).map (fun q => q.price.isSome) = some false := by
  decide

/-- C9 amended: every point the 1sec `fetch_window` produces has
`price = int(raw) * 10^expo`; its confidence is `int(conf) * 10^expo` when
the (defaulted) `conf` is truthy, null when `conf` is present but falsy
(null, empty string, or zero) — and an *absent* `conf` defaults to the
string "0", giving confidence `0 * 10^expo`, not null.  The 1min variant
additionally emits parse-failure rows with null price and conf. -/
theorem C9_price_conf_values (fid : String) (p : ParsedItem) (pt : PricePoint)
    (q : ParsedItem) (rv2 : Jv) (ts : Int)
    (h : processItem1sec fid p = some pt) :
    (∃ rv n, p.price = some rv ∧ pyInt rv = some n ∧
      pt.price = some ((n : ℚ) * pow10 (p.expo.getD (-8)))) ∧
    (truthy (p.conf.getD (Jv.jstr "0")) = true →
      ∃ c, pyInt (p.conf.getD (Jv.jstr "0")) = some c ∧
        pt.conf = some ((c : ℚ) * pow10 (p.expo.getD (-8)))) ∧
    (truthy (p.conf.getD (Jv.jstr "0")) = false → pt.conf = none) ∧
    (p.conf = none → pt.conf = some ((0 : ℚ) * pow10 (p.expo.getD (-8)))) ∧
    (itemIdNorm q.id = fid → q.price = some rv2 → pyInt rv2 = none →
      q.publish_time = some ts →
      processItem1min fid q = some { timestamp := ts, price := none, conf := none }) := by
  refine ⟨?_, ?_, ?_, ?_, ?_⟩
  case refine_5 =>
    intro hid h1 h2 h3
    unfold processItem1min
    rw [if_neg (by rw [hid]; exact fun hne => hne rfl), h1, h3]
    dsimp only
    rw [h2]
  all_goals
    unfold processItem1sec at h
    split at h
    · cases h
    · cases hpr : p.price with
      | none => rw [hpr] at h; cases p.publish_time <;> cases h
      | some rv =>
        rw [hpr] at h
        cases hpt : p.publish_time with
        | none => rw [hpt] at h; cases h
        | some u =>
          rw [hpt] at h
          dsimp only at h
          cases hn : pyInt rv with
          | none => rw [hn] at h; cases h
          | some n =>
            rw [hn] at h
            dsimp only at h
            by_cases htr : truthy (p.conf.getD (Jv.jstr "0")) = true
            · rw [if_pos htr] at h
              cases hc : pyInt (p.conf.getD (Jv.jstr "0")) with
              | none => rw [hc] at h; cases h
              | some c =>
                rw [hc] at h
                dsimp only at h
                injection h with h2
                subst h2
                first
                | exact ⟨rv, n, rfl, hn, rfl⟩
                | (intro _; exact ⟨c, rfl, rfl⟩)
                | (intro hfalse; rw [htr] at hfalse; cases hfalse)
                | (intro hcn
                   rw [hcn] at hc
                   have hps : pyInt (Option.getD none (Jv.jstr "0")) = some 0 := by decide
                   rw [hps] at hc
                   injection hc with hcc
                   subst hcc
                   simp)
            · have htr2 : truthy (p.conf.getD (Jv.jstr "0")) = false := by
                cases htv : truthy (p.conf.getD (Jv.jstr "0")) with
                | false => rfl
                | true => exact absurd htv htr
              rw [if_neg htr] at h
              injection h with h2
              subst h2
              first
              | exact ⟨rv, n, rfl, hn, rfl⟩
              | (intro _; rfl)
              | (intro htt; rw [htt] at htr2; cases htr2)

/-- Witness for the amended C9: the conf-absent item yields confidence
`0 * 10^0`, which is not null. -/
theorem C9_price_conf_values_witness :
    ({ timestamp := 7, price := some (((5 : Int) : ℚ) * pow10 0),
       conf := some (((0 : Int) : ℚ) * pow10 0) } : PricePoint).conf =
      some ((0 : ℚ) * pow10 0) := by
  have h := (C9_price_conf_values "ab" itemNoConf
    { timestamp := 7, price := some (((5 : Int) : ℚ) * pow10 0),
      conf := some (((0 : Int) : ℚ) * pow10 0) }
    itemNoConf Jv.jnull 0 rfl).2.2.2.1 rfl
  exact h

/-! ## Claim C10 -/

/-- C10 confirmed: `parsed_bars` raises exactly when the status field is
not "ok"; on "ok" it returns one bar per entry of `t`, in order, and a
value array shorter than `t` pads the corresponding bar fields with
`None` (`o[i] if i < len(o) else None` is `List.get?`). -/
theorem C10_parsed_bars (d : Hist) :
    (exOk (parsed_bars d) = true ↔ d.s = some "ok") ∧
    (∀ bars, parsed_bars d = Except.ok bars →
      bars.length = (d.t.getD []).length ∧
      ∀ (i : Nat) (ti : Int), (d.t.getD []).get? i = some ti →
        bars.get? i = some ⟨ti, (d.o.getD []).get? i, (d.h.getD []).get? i,
          (d.l.getD []).get? i, (d.c.getD []).get? i, (d.v.getD []).get? i⟩) := by
  by_cases hs : d.s = some "ok"
  · have hok : ¬(d.s ≠ some "ok") := fun hne => hne hs
    constructor
    · unfold parsed_bars
      rw [if_neg hok]
      simp [exOk, hs]
    · intro bars hb
      unfold parsed_bars at hb
      rw [if_neg hok] at hb
      injection hb with hb2
      subst hb2
      constructor
      · rw [List.length_map, List.enum_length]
      · intro i ti hti
        rw [List.get?_map, List.get?_enum, hti]
        rfl
  · constructor
    · unfold parsed_bars
      rw [if_pos hs]
      simp [exOk, hs]
    · intro bars hb
      unfold parsed_bars at hb
      rw [if_pos hs] at hb
      cases hb

/-- Witness for C10 at a concrete response: status "ok", two timestamps,
a one-element open array — two bars, the second padded with `None`. -/
theorem C10_parsed_bars_witness :
    ((Hist.mk (some "ok") none (some [5, 6]) (some [(1 : ℚ)]) none none none none).t.getD
      []).length = 2 ∧
    ∀ bars, parsed_bars
        (Hist.mk (some "ok") none (some [5, 6]) (some [(1 : ℚ)]) none none none none) =
        Except.ok bars →
      bars.length = 2 ∧
      bars.get? 1 = some ⟨6, none, none, none, none, none⟩ := by
  refine ⟨by decide, ?_⟩
  intro bars hb
  have h := (C10_parsed_bars
    (Hist.mk (some "ok") none (some [5, 6]) (some [(1 : ℚ)]) none none none none)).2 bars hb
  exact ⟨h.1, h.2 1 6 rfl⟩

end Pyth
